import Mathlib

/-!
Verification of the schema migration engine
(`ockam_node/src/storage/database/migrations/migration_support/migrator.rs`).

The Rust code is embedded shallowly: database interaction is modelled as
explicit state passing over `DbState` / `WorldState`, fallible calls return
`Except MigErr`, and the async structure is flattened (the engine is strictly
sequential on one connection).  Types that the migrator uses but that are
defined outside the sampled sources (`MigrationStatus`, `MigrationResult`,
`MigrationFailure`, the sqlx driver's `apply`, the name of the legacy import
step) are modelled from the specification and marked as such in their
doc comments.
-/

set_option linter.unusedVariables false

namespace OckamMigrator

/-- Migration version: model of `pub struct Version(pub i64)`.  The payload is
the i64 value; ordering is numeric, as derived in the source. -/
structure Version where
  val : Int
deriving DecidableEq, Repr

/-- `Version::MIN = Version(0)` -/
def Version.MIN : Version := ⟨0⟩

/-- `Version::MAX = Version(i64::MAX)` -/
def Version.MAX : Version := ⟨9223372036854775807⟩

/-- Model of `sqlx::migrate::Migration` restricted to the fields the migrator
reads: `version`, `description`, `migration_type.is_down_migration()`
(collapsed to a boolean), `sql`, and `checksum` as a byte list. -/
structure SqlxMigration where
  version : Int
  description : String
  isDownMigration : Bool
  sql : String
  checksum : List Nat
deriving DecidableEq, Repr

/-- Model of `sqlx::migrate::AppliedMigration`: one row of the SQL history
table as the migrator reads it (`version` and `checksum`). -/
structure AppliedMigration where
  version : Int
  checksum : List Nat
deriving DecidableEq, Repr

/-- The migrator-visible state of one database: the dirty-version marker and
the applied-SQL history managed by the sqlx driver, the `_rust_migrations`
rows (`name`, `run_on`) managed by the engine, the set of SQL step versions
whose driver-side apply would fail, and opaque domain rows that code
migrations may edit. -/
structure DbState where
  dirtyVersion : Option Int := none
  appliedSql : List AppliedMigration := []
  rustMigrationRows : List (String × Int) := []
  sqlApplyFails : List Int := []
  domainRows : List (String × String) := []
deriving DecidableEq, Repr

/-- Model of the `RustMigration` trait object: `name()`, `version()`, and
`migrate(legacy_sqlite_database, connection)`.  `migrate` is an arbitrary
state transformer on the target database that may also report an error
message; its writes persist even when it errors, as over a live connection. -/
structure RustMigration where
  name : String
  version : Version
  migrate : Option DbState → DbState → DbState × Option String

/-- Modelled from the spec: `MigrationFailure` (defined outside the sampled
sources) is the closed set of reasons carried by a `Failed` status — a dirty
version left by a previously aborted SQL apply, or an incorrect checksum
carrying (description, sql, actual, expected). -/
inductive MigrationFailure where
  | dirtyVersion
  | incorrectChecksum (description sql actual expected : String)
deriving DecidableEq, Repr

/-- Modelled from the spec: `MigrationResult` (defined outside the sampled
sources) is the per-step outcome consumed by the apply loop. -/
inductive MigrationResult where
  | migrationSuccess
  | migrationFailure (failure : MigrationFailure)
deriving DecidableEq, Repr

/-- Modelled from the spec: the `MigrationResult` constructor used for a down
step.  §4.6 and §7 of the spec state that a down step is a silently skipped
no-op, not an error, so the result is success. -/
def MigrationResult.down_migration : MigrationResult := .migrationSuccess

/-- Modelled from the spec: the `MigrationResult` constructor for a checksum
mismatch detected in apply mode. -/
def MigrationResult.incorrect_checksum (description sql actual expected : String) :
    MigrationResult :=
  .migrationFailure (.incorrectChecksum description sql actual expected)

/-- Modelled from the spec: `MigrationStatus` (defined outside the sampled
sources): `UpToDate(last)`, `Todo(last_applied?, next)`, or
`Failed(version, reason)`. -/
inductive MigrationStatus where
  | upToDate (version : Version)
  | todo (lastApplied : Option Version) (next : Version)
  | failed (version : Version) (reason : MigrationFailure)
deriving DecidableEq, Repr

/-- The hard errors (`ockam_core::Error`) the migrator raises, keyed by the
call sites in migrator.rs. -/
inductive MigErr where
  | duplicateVersion (version : Version)
  | checksumMismatch (description : String) (version : Int)
  | sqlApplyFailed (description : String)
  | rustMigrateFailed (msg : String)
  | migrationPreviouslyFailed (version : Version) (reason : MigrationFailure)
deriving DecidableEq, Repr

/-- The full mutable world a migrator call touches: the target database, the
legacy sqlite database (meaningful when the migrator holds a legacy handle),
and the wall clock used for `run_on` stamps. -/
structure WorldState where
  db : DbState
  legacyDb : DbState := {}
  clock : Int := 0
deriving DecidableEq, Repr

/-- Model of `Migrator`: the unsorted rust and sql step collections (the
latter models `sql_migrator.migrations`) plus whether a legacy sqlite
database handle is configured. -/
structure Migrator where
  rust_migrations : List RustMigration := []
  sql_migrations : List SqlxMigration := []
  hasLegacySqliteDatabase : Bool := false

/-- Modelled from the spec: `InitializeFromSqlite::name()` (the file defining
the legacy import step is outside the sampled sources); only its identity as
a distinguished string matters to the migrator. -/
def initFromSqliteName : String := "InitializeFromSqlite"

/-- `Migrator::check_duplicates`: insert versions into a set, failing on the
first collision (the set is modelled as the list of versions already seen). -/
def check_duplicates_from (seen : List Int) : List Version → Except MigErr Unit
  | [] => .ok ()
  | v :: rest =>
    if seen.contains v.val then .error (.duplicateVersion v)
    else check_duplicates_from (v.val :: seen) rest

/-- `Migrator::check_duplicates` -/
def check_duplicates (versions : List Version) : Except MigErr Unit :=
  check_duplicates_from [] versions

/-- `Migrator::new`: checks the sql steps for duplicate versions and starts
with no rust migrations and no legacy database. -/
def Migrator.new (sql_migrations : List SqlxMigration) : Except MigErr Migrator :=
  match check_duplicates (sql_migrations.map (fun m => ⟨m.version⟩)) with
  | .error e => .error e
  | .ok _ =>
    .ok { rust_migrations := [], sql_migrations := sql_migrations,
          hasLegacySqliteDatabase := false }

/-- `Migrator::set_rust_migrations`: checks the rust steps for duplicate
versions and installs them. -/
def set_rust_migrations (migrator : Migrator) (rust_migrations : List RustMigration) :
    Except MigErr Migrator :=
  match check_duplicates (rust_migrations.map (fun m => m.version)) with
  | .error e => .error e
  | .ok _ => .ok { migrator with rust_migrations := rust_migrations }

/-- `Migrator::has_migrated`: `SELECT COUNT(*) FROM _rust_migrations WHERE
name = ?` compared against zero. -/
def has_migrated (db : DbState) (migration_name : String) : Bool :=
  db.rustMigrationRows.any (fun r => r.1 == migration_name)

/-- `Migrator::mark_as_migrated`: upsert of `(name, run_on)` into
`_rust_migrations`. -/
def mark_as_migrated (db : DbState) (migration_name : String) (now : Int) : DbState :=
  if db.rustMigrationRows.any (fun r => r.1 == migration_name) then
    { db with rustMigrationRows :=
        db.rustMigrationRows.map (fun r => if r.1 == migration_name then (r.1, now) else r) }
  else
    { db with rustMigrationRows := db.rustMigrationRows ++ [(migration_name, now)] }

/-- Model of `String::from_utf8(checksum)` as used when displaying checksums:
bytes decode to the corresponding characters; the invalid-utf8 fallback text
is not modelled (no claim inspects these strings). -/
def checksumDisplay (checksum : List Nat) : String :=
  String.mk (checksum.map Char.ofNat)

/-- Modelled from the spec (§4.4, §4.6): the sqlx driver's
`connection.apply(migration)`: on success it runs the body and appends the
applied-SQL record carrying the step's checksum; on failure it records the
dirty version.  Which steps fail at the driver is part of the database state
(`sqlApplyFails`, empty in a healthy run). -/
def sqlxApply (db : DbState) (migration : SqlxMigration) : DbState × Option String :=
  if db.sqlApplyFails.contains migration.version then
    ({ db with dirtyVersion := some migration.version }, some migration.description)
  else
    ({ db with appliedSql := db.appliedSql ++ [⟨migration.version, migration.checksum⟩] }, none)

/-- `Migrator::needs_sql_migration`: a down step never needs migration; an
applied step with matching checksum does not; a mismatched checksum is a hard
error; an absent step is pending. -/
def needs_sql_migration (migration : SqlxMigration)
    (applied_migrations : List AppliedMigration) : Except MigErr Bool :=
  if migration.isDownMigration then .ok false
  else
    match applied_migrations.find? (fun m => m.version == migration.version) with
    | some applied_migration =>
      if migration.checksum ≠ applied_migration.checksum then
        .error (.checksumMismatch migration.description migration.version)
      else .ok false
    | none => .ok true

/-- `Migrator::apply_sql_migration`: skip down steps; for an already applied
step compare checksums (note: the source passes `migration.checksum` for both
the actual and the expected display string); for an unseen step call the
driver's apply, mapping a driver failure to a hard error. -/
def apply_sql_migration (migration : SqlxMigration) (db : DbState)
    (applied_migrations : List AppliedMigration) :
    DbState × Except MigErr MigrationResult :=
  if migration.isDownMigration then (db, .ok MigrationResult.down_migration)
  else
    match applied_migrations.find? (fun m => m.version == migration.version) with
    | some applied_migration =>
      if migration.checksum ≠ applied_migration.checksum then
        (db, .ok (MigrationResult.incorrect_checksum migration.description migration.sql
          (checksumDisplay migration.checksum) (checksumDisplay migration.checksum)))
      else (db, .ok .migrationSuccess)
    | none =>
      match sqlxApply db migration with
      | (db', none) => (db', .ok .migrationSuccess)
      | (db', some e) => (db', .error (.sqlApplyFailed e))

/-- `Migrator::needs_rust_migration`: the live `_rust_migrations` check on the
current connection (for every rust step, the legacy one included). -/
def needs_rust_migration (migration : RustMigration) (db : DbState) : Bool :=
  !(has_migrated db migration.name)

/-- `Migrator::apply_rust_migration`: the legacy import step checks and marks
against the legacy sqlite database and is skipped entirely when no legacy
source is configured; every other step checks and marks against the current
connection.  `migrate` errors propagate; the mark is written only after
`migrate` succeeds. -/
def apply_rust_migration (migrator : Migrator) (migration : RustMigration)
    (w : WorldState) : WorldState × Except MigErr MigrationResult :=
  if migration.name == initFromSqliteName then
    if migrator.hasLegacySqliteDatabase then
      if has_migrated w.legacyDb migration.name then (w, .ok .migrationSuccess)
      else
        match migration.migrate (some w.legacyDb) w.db with
        | (db', some e) => ({ w with db := db' }, .error (.rustMigrateFailed e))
        | (db', none) =>
          ({ w with
             db := db',
             legacyDb := mark_as_migrated w.legacyDb migration.name w.clock },
           .ok .migrationSuccess)
    else (w, .ok .migrationSuccess)
  else
    if has_migrated w.db migration.name then (w, .ok .migrationSuccess)
    else
      match migration.migrate
          (if migrator.hasLegacySqliteDatabase then some w.legacyDb else none) w.db with
      | (db', some e) => ({ w with db := db' }, .error (.rustMigrateFailed e))
      | (db', none) =>
        ({ w with db := mark_as_migrated db' migration.name w.clock },
         .ok .migrationSuccess)

/-- `enum NextMigration`: the tagged union the ordering and the loops operate
over. -/
inductive NextMigration where
  | sql (migration : SqlxMigration)
  | rust (migration : RustMigration)

/-- `NextMigration::is_sql` -/
def NextMigration.is_sql : NextMigration → Bool
  | .sql _ => true
  | .rust _ => false

/-- `NextMigration::version` -/
def NextMigration.version : NextMigration → Version
  | .sql m => ⟨m.version⟩
  | .rust m => m.version

/-- `i64::cmp` -/
def intCmp (a b : Int) : Ordering :=
  if a < b then .lt else if a = b then .eq else .gt

/-- `impl Ord for NextMigration`: version first; at equal version SQL goes
first.  The `(false, false)` case is `unreachable!()` in the source (two rust
steps at one version are rejected by the duplicate check); it is modelled as
`eq`, and every theorem that relies on the ordering carries the
no-duplicates hypothesis that keeps the source branch unreachable. -/
def NextMigration.cmp (a b : NextMigration) : Ordering :=
  match intCmp a.version.val b.version.val with
  | .eq =>
    match a.is_sql, b.is_sql with
    | true, true => .eq
    | true, false => .lt
    | false, true => .gt
    | false, false => .eq
  | ord => ord

/-- One insertion step of the stable sort modelling `migrations.sort()`. -/
def insertMigration (a : NextMigration) : List NextMigration → List NextMigration
  | [] => [a]
  | b :: l =>
    if NextMigration.cmp a b ≠ Ordering.gt then a :: b :: l else b :: insertMigration a l

/-- Model of `migrations.sort()`: a stable sort by `Ord for NextMigration`
(insertion sort; stability and sortedness are proved below, which pins the
same output as any stable sort). -/
def sortMigrations : List NextMigration → List NextMigration
  | [] => []
  | a :: l => insertMigration a (sortMigrations l)

/-- The merged, filtered and sorted step stream built at the top of
`run_migrations_impl`: sql steps with version ≤ up_to, then rust steps with
version ≤ up_to, stably sorted. -/
def mergedMigrations (migrator : Migrator) (up_to : Version) : List NextMigration :=
  sortMigrations
    ((migrator.sql_migrations.filter (fun m => decide (m.version ≤ up_to.val))).map
        NextMigration.sql
      ++ (migrator.rust_migrations.filter (fun m => decide (m.version.val ≤ up_to.val))).map
        NextMigration.rust)

/-- `enum Mode` -/
inductive Mode where
  | dryRun
  | applyMigrations

/-- The per-step pending check of the dry-run loop body. -/
def stepNeeds (db : DbState) (applied_migrations : List AppliedMigration) :
    NextMigration → Except MigErr Bool
  | .sql m => needs_sql_migration m applied_migrations
  | .rust m => .ok (needs_rust_migration m db)

/-- The `Mode::DryRun` loop of `run_migrations_impl`: scan the stream; on the
first pending step return `Todo(last_applied, next_to_apply)` (both computed
before the loop); if a check errors propagate; otherwise return
`UpToDate(last_migrated_version)`. -/
def dryRunLoop (db : DbState) (applied_migrations : List AppliedMigration)
    (lastApplied : Option Version) (nextToApply : Version) (lastMigrated : Version) :
    List NextMigration → Except MigErr MigrationStatus
  | [] => .ok (.upToDate lastMigrated)
  | m :: rest =>
    match stepNeeds db applied_migrations m with
    | .error e => .error e
    | .ok true => .ok (.todo lastApplied nextToApply)
    | .ok false => dryRunLoop db applied_migrations lastApplied nextToApply m.version rest

/-- The `Mode::ApplyMigrations` loop of `run_migrations_impl`: apply each step
against the snapshot of applied migrations taken before the loop; a
`MigrationFailure` becomes a `Failed` status, an error propagates, and on
completion the status is `UpToDate(last_migrated_version)`. -/
def applyLoop (migrator : Migrator) (applied_migrations : List AppliedMigration) :
    List NextMigration → WorldState → Version → WorldState × Except MigErr MigrationStatus
  | [], w, lastMigrated => (w, .ok (.upToDate lastMigrated))
  | .sql m :: rest, w, _ =>
    match apply_sql_migration m w.db applied_migrations with
    | (db', .error e) => ({ w with db := db' }, .error e)
    | (db', .ok .migrationSuccess) =>
      applyLoop migrator applied_migrations rest { w with db := db' } ⟨m.version⟩
    | (db', .ok (.migrationFailure failure)) =>
      ({ w with db := db' }, .ok (.failed ⟨m.version⟩ failure))
  | .rust m :: rest, w, _ =>
    match apply_rust_migration migrator m w with
    | (w', .error e) => (w', .error e)
    | (w', .ok .migrationSuccess) => applyLoop migrator applied_migrations rest w' m.version
    | (w', .ok (.migrationFailure failure)) => (w', .ok (.failed m.version failure))

/-- `Migrator::run_migrations_impl`: ensure the history table (a no-op in the
model), return `Failed(v, DirtyVersion)` when the dirty marker is set, build
the merged stream, snapshot the applied-SQL list, and run the selected mode's
loop.  `last_applied` is the last row of the snapshot; `next_migration_to_apply`
is the version of the LAST step of the stream (or MIN when the stream is
empty), exactly as in the source. -/
def run_migrations_impl (migrator : Migrator) (w : WorldState) (up_to : Version)
    (mode : Mode) : WorldState × Except MigErr MigrationStatus :=
  match w.db.dirtyVersion with
  | some v => (w, .ok (.failed ⟨v⟩ .dirtyVersion))
  | none =>
    let migrations := mergedMigrations migrator up_to
    let applied_migrations := w.db.appliedSql
    let lastApplied := applied_migrations.getLast?.map (fun m => Version.mk m.version)
    let nextToApply := ((migrations.getLast?.map NextMigration.version).getD Version.MIN)
    match mode with
    | .dryRun =>
      (w, dryRunLoop w.db applied_migrations lastApplied nextToApply Version.MIN migrations)
    | .applyMigrations => applyLoop migrator applied_migrations migrations w Version.MIN

/-- `Migrator::needs_migration`: dry run; `UpToDate` means no, `Todo` means
yes, and a `Failed` status is converted into a hard error. -/
def needs_migration (migrator : Migrator) (w : WorldState) (up_to : Version) :
    Except MigErr Bool :=
  match (run_migrations_impl migrator w up_to .dryRun).2 with
  | .ok (.upToDate _) => .ok false
  | .ok (.todo _ _) => .ok true
  | .ok (.failed version reason) => .error (.migrationPreviouslyFailed version reason)
  | .error e => .error e

/-- `Migrator::run_migrations`: the apply mode of `run_migrations_impl`. -/
def run_migrations (migrator : Migrator) (w : WorldState) (up_to : Version) :
    WorldState × Except MigErr MigrationStatus :=
  run_migrations_impl migrator w up_to .applyMigrations

/-- `Migrator::migrate_up_to`: acquire a connection (implicit), dry-run; when
nothing is needed return `UpToDate(up_to)` without locking; otherwise lock
(the lock adapter is a no-op in this sequential model), run the apply mode,
unlock, and return its result. -/
def migrate_up_to (migrator : Migrator) (w : WorldState) (up_to : Version) :
    WorldState × Except MigErr MigrationStatus :=
  match needs_migration migrator w up_to with
  | .error e => (w, .error e)
  | .ok false => (w, .ok (.upToDate up_to))
  | .ok true => run_migrations migrator w up_to

/-- `Migrator::migrate`: `migrate_up_to(Version::MAX)`. -/
def Migrator.migrate (migrator : Migrator) (w : WorldState) :
    WorldState × Except MigErr MigrationStatus :=
  migrate_up_to migrator w Version.MAX

/-- `Migrator::migration_status`: the dry-run mode at `Version::MAX`; it does
not change the database. -/
def migration_status (migrator : Migrator) (w : WorldState) :
    Except MigErr MigrationStatus :=
  (run_migrations_impl migrator w Version.MAX .dryRun).2

/-! ### Auxiliary definitions for the theorems -/

/-- The sort key realised by `NextMigration.cmp`: versions are doubled and the
rust family pays a tie-break penalty of one, so the lexicographic
(version, family) order becomes a linear order on integers. -/
def NextMigration.sortKey (m : NextMigration) : Int :=
  2 * m.version.val + (if m.is_sql then 0 else 1)

/-- A code migration that always succeeds and does not itself write the
migrator's bookkeeping: it preserves the applied-SQL history, the
`_rust_migrations` rows and the set of failing SQL applies. -/
def migrateOkPreserving (m : RustMigration) : Prop :=
  ∀ l s, (m.migrate l s).2 = none ∧
    (m.migrate l s).1.appliedSql = s.appliedSql ∧
    (m.migrate l s).1.rustMigrationRows = s.rustMigrationRows ∧
    (m.migrate l s).1.sqlApplyFails = s.sqlApplyFails

/-- The names of the rust steps of a stream, in order. -/
def rustNames (l : List NextMigration) : List String :=
  l.filterMap (fun m => match m with | .rust r => some r.name | .sql _ => none)

/-- The applied-SQL records that applying the non-down SQL steps of a stream
appends, in order. -/
def sqlRecords (l : List NextMigration) : List AppliedMigration :=
  l.filterMap (fun m => match m with
    | .sql s => if s.isDownMigration then none else some ⟨s.version, s.checksum⟩
    | .rust _ => none)

/-! ### Concrete fixtures used by witnesses and counterexamples -/

/-- A plain SQL step at version 100 (checksum byte `'1'`). -/
def exSql100 : SqlxMigration :=
  { version := 100, description := "one", isDownMigration := false, sql := "A",
    checksum := [49] }

/-- A plain SQL step at version 150 (checksum byte `'3'`). -/
def exSql150 : SqlxMigration :=
  { version := 150, description := "onefifty", isDownMigration := false, sql := "C",
    checksum := [51] }

/-- A plain SQL step at version 200 (checksum byte `'2'`). -/
def exSql200 : SqlxMigration :=
  { version := 200, description := "two", isDownMigration := false, sql := "B",
    checksum := [50] }

/-- A code step that succeeds and changes nothing. -/
def exRustNoop (n : String) (v : Int) : RustMigration :=
  { name := n, version := ⟨v⟩, migrate := fun _ s => (s, none) }

/-- A code step whose `migrate` always errors (and changes nothing). -/
def exRustFail : RustMigration :=
  { name := "boom", version := ⟨250⟩, migrate := fun _ s => (s, some "fail") }

/-- The always-succeeding code step used in the C1 witness. -/
def exRustOk : RustMigration := exRustNoop "r100" 100

/-- The legacy import code step (succeeding, no-op). -/
def exRustLegacy : RustMigration := exRustNoop "InitializeFromSqlite" 1

/-- Two code steps sharing a name at distinct versions. -/
def exRustA1 : RustMigration := exRustNoop "a" 1

/-- Two code steps sharing a name at distinct versions. -/
def exRustA2 : RustMigration := exRustNoop "a" 2

/-- A fresh world: empty database, empty legacy database, clock 0. -/
def exFreshWorld : WorldState := { db := {} }

/-- A world whose database carries the dirty-version marker 7. -/
def exDirtyWorld : WorldState := { db := { dirtyVersion := some 7 } }

/-- Registry of the three SQL steps. -/
def exMig3 : Migrator := { sql_migrations := [exSql100, exSql150, exSql200] }

/-- Registry of SQL steps 100 and 200 only. -/
def exMigC10 : Migrator := { sql_migrations := [exSql100, exSql200] }

/-- Registry of two SQL steps and one code step, all succeeding. -/
def exMigMix : Migrator :=
  { sql_migrations := [exSql100, exSql200], rust_migrations := [exRustOk] }

/-- Registry holding only the legacy import step, with no legacy source. -/
def exMigLegacy : Migrator := { rust_migrations := [exRustLegacy] }

/-- Registry holding only the legacy import step, with a legacy source. -/
def exMigWithLegacy : Migrator :=
  { rust_migrations := [exRustLegacy], hasLegacySqliteDatabase := true }

/-- Spec scenario 3: steps 100 and 200 applied with matching checksums, the
later-added step 150 not applied. -/
def exWorldScenario3 : WorldState :=
  { db := { appliedSql := [⟨100, [49]⟩, ⟨200, [50]⟩] } }

/-- Only version 200 applied, with a corrupted checksum (and 100 pending). -/
def exWorldMismatch : WorldState := { db := { appliedSql := [⟨200, [99]⟩] } }

/-- Versions 100 and 200 applied, 100 matching and 200 corrupted. -/
def exWorldMismatch2 : WorldState :=
  { db := { appliedSql := [⟨100, [49]⟩, ⟨200, [99]⟩] } }

/-! ### Ordering lemmas -/

theorem intCmp_trichotomy (a b : Int) :
    (intCmp a b = .lt ∧ a < b) ∨ (intCmp a b = .eq ∧ a = b) ∨ (intCmp a b = .gt ∧ b < a) := by
  unfold intCmp
  rcases lt_trichotomy a b with h | h | h
  · left; simp [h]
  · right; left; simp [h]
  · right; right
    constructor
    · rw [if_neg (by omega), if_neg (by omega)]
    · exact h

theorem NextMigration.cmp_eq_lt {a b : NextMigration} :
    NextMigration.cmp a b = .lt ↔ a.sortKey < b.sortKey := by
  unfold NextMigration.cmp NextMigration.sortKey
  rcases intCmp_trichotomy a.version.val b.version.val with ⟨h, hv⟩ | ⟨h, hv⟩ | ⟨h, hv⟩ <;>
    rw [h] <;>
    rcases Bool.dichotomy a.is_sql with h1 | h1 <;>
    rcases Bool.dichotomy b.is_sql with h2 | h2 <;>
    simp [h1, h2] <;> omega

theorem NextMigration.cmp_eq_gt {a b : NextMigration} :
    NextMigration.cmp a b = .gt ↔ b.sortKey < a.sortKey := by
  unfold NextMigration.cmp NextMigration.sortKey
  rcases intCmp_trichotomy a.version.val b.version.val with ⟨h, hv⟩ | ⟨h, hv⟩ | ⟨h, hv⟩ <;>
    rw [h] <;>
    rcases Bool.dichotomy a.is_sql with h1 | h1 <;>
    rcases Bool.dichotomy b.is_sql with h2 | h2 <;>
    simp [h1, h2] <;> omega

theorem NextMigration.cmp_eq_eq {a b : NextMigration} :
    NextMigration.cmp a b = .eq ↔ a.sortKey = b.sortKey := by
  unfold NextMigration.cmp NextMigration.sortKey
  rcases intCmp_trichotomy a.version.val b.version.val with ⟨h, hv⟩ | ⟨h, hv⟩ | ⟨h, hv⟩ <;>
    rw [h] <;>
    rcases Bool.dichotomy a.is_sql with h1 | h1 <;>
    rcases Bool.dichotomy b.is_sql with h2 | h2 <;>
    simp [h1, h2] <;> omega

theorem NextMigration.not_gt_iff {a b : NextMigration} :
    NextMigration.cmp a b ≠ .gt ↔ a.sortKey ≤ b.sortKey := by
  rw [Ne, NextMigration.cmp_eq_gt]; omega

/-- The spec-level reading of a strict `cmp` comparison: strictly smaller
version, or equal version with SQL on the left and code on the right. -/
theorem NextMigration.cmp_lt_spec {a b : NextMigration} :
    NextMigration.cmp a b = .lt ↔
      (a.version.val < b.version.val ∨
        (a.version.val = b.version.val ∧ a.is_sql = true ∧ b.is_sql = false)) := by
  rw [NextMigration.cmp_eq_lt]
  unfold NextMigration.sortKey
  rcases Bool.dichotomy a.is_sql with h1 | h1 <;>
    rcases Bool.dichotomy b.is_sql with h2 | h2 <;>
    simp [h1, h2] <;> omega

theorem mem_insertMigration {x a : NextMigration} {l : List NextMigration} :
    x ∈ insertMigration a l ↔ x = a ∨ x ∈ l := by
  induction l with
  | nil => simp [insertMigration]
  | cons b t ih =>
    unfold insertMigration
    split
    · simp
    · simp only [List.mem_cons, ih]
      tauto

theorem insertMigration_perm (a : NextMigration) (l : List NextMigration) :
    (insertMigration a l).Perm (a :: l) := by
  induction l with
  | nil => simp [insertMigration]
  | cons b t ih =>
    unfold insertMigration
    split
    · exact List.Perm.refl _
    · exact (ih.cons b).trans (List.Perm.swap a b t)

theorem sortMigrations_perm (l : List NextMigration) : (sortMigrations l).Perm l := by
  induction l with
  | nil => exact List.Perm.refl _
  | cons a t ih => exact (insertMigration_perm a (sortMigrations t)).trans (ih.cons a)

theorem mem_sortMigrations {x : NextMigration} {l : List NextMigration} :
    x ∈ sortMigrations l ↔ x ∈ l :=
  (sortMigrations_perm l).mem_iff

theorem pairwise_insertMigration {a : NextMigration} {l : List NextMigration}
    (h : l.Pairwise (fun x y => x.sortKey ≤ y.sortKey)) :
    (insertMigration a l).Pairwise (fun x y => x.sortKey ≤ y.sortKey) := by
  induction l with
  | nil => simp [insertMigration]
  | cons b t ih =>
    rw [List.pairwise_cons] at h
    unfold insertMigration
    split
    · rename_i hle0
      have hle : a.sortKey ≤ b.sortKey := NextMigration.not_gt_iff.1 hle0
      refine List.pairwise_cons.2 ⟨?_, List.pairwise_cons.2 h⟩
      intro y hy
      rcases List.mem_cons.1 hy with rfl | hy
      · exact hle
      · exact le_trans hle (h.1 y hy)
    · rename_i hgt0
      have hgt : b.sortKey < a.sortKey :=
        NextMigration.cmp_eq_gt.1 (not_not.1 hgt0)
      refine List.pairwise_cons.2 ⟨?_, ih h.2⟩
      intro y hy
      rcases mem_insertMigration.1 hy with rfl | hy
      · omega
      · exact h.1 y hy

theorem pairwise_sortMigrations (l : List NextMigration) :
    (sortMigrations l).Pairwise (fun x y => x.sortKey ≤ y.sortKey) := by
  induction l with
  | nil => simp [sortMigrations]
  | cons a t ih => exact pairwise_insertMigration ih

/-! ### Dry-run loop lemmas -/

theorem getLast_cons_getD (m : NextMigration) (rest : List NextMigration) (lm : Version) :
    ((m :: rest).getLast?.map NextMigration.version).getD lm =
      ((rest.getLast?.map NextMigration.version).getD m.version) := by
  cases rest with
  | nil => simp
  | cons r rs =>
    rw [List.getLast?_cons_cons]
    cases hg : (r :: rs).getLast? with
    | none => simp at hg
    | some x => simp [hg]

theorem dryRunLoop_todo_args {db : DbState} {applied : List AppliedMigration}
    {la la' : Option Version} {nta nta' lm : Version} {l : List NextMigration}
    (h : dryRunLoop db applied la nta lm l = .ok (.todo la' nta')) :
    la' = la ∧ nta' = nta := by
  induction l generalizing lm with
  | nil => simp [dryRunLoop] at h
  | cons m rest ih =>
    unfold dryRunLoop at h
    cases hs : stepNeeds db applied m with
    | error e => rw [hs] at h; cases h
    | ok b =>
      rw [hs] at h
      cases b with
      | true =>
        simp only at h
        injection h with h
        injection h with h1 h2
        exact ⟨h1.symm, h2.symm⟩
      | false => exact ih h

theorem dryRunLoop_upToDate_all {db : DbState} {applied : List AppliedMigration}
    {la : Option Version} {nta lm v : Version} {l : List NextMigration}
    (h : dryRunLoop db applied la nta lm l = .ok (.upToDate v)) :
    ∀ m ∈ l, stepNeeds db applied m = .ok false := by
  induction l generalizing lm with
  | nil => intro m hm; cases hm
  | cons m rest ih =>
    intro x hx
    unfold dryRunLoop at h
    cases hs : stepNeeds db applied m with
    | error e => rw [hs] at h; cases h
    | ok b =>
      rw [hs] at h
      cases b with
      | true => simp at h
      | false =>
        rcases List.mem_cons.1 hx with rfl | hx
        · exact hs
        · exact ih h x hx

theorem dryRunLoop_of_all_false {db : DbState} {applied : List AppliedMigration}
    {la : Option Version} {nta : Version} {l : List NextMigration}
    (h : ∀ m ∈ l, stepNeeds db applied m = .ok false) : ∀ lm,
    dryRunLoop db applied la nta lm l =
      .ok (.upToDate ((l.getLast?.map NextMigration.version).getD lm)) := by
  induction l with
  | nil => intro lm; simp [dryRunLoop]
  | cons m rest ih =>
    intro lm
    have hm := h m (List.mem_cons_self m rest)
    have ihr := ih (fun x hx => h x (List.mem_cons_of_mem m hx)) m.version
    simp only [dryRunLoop, hm]
    rw [ihr, getLast_cons_getD]

theorem dryRunLoop_of_pending {db : DbState} {applied : List AppliedMigration}
    {la : Option Version} {nta : Version} {l : List NextMigration}
    (hne : ∀ m ∈ l, ∀ e, stepNeeds db applied m ≠ .error e)
    (hex : ∃ m ∈ l, stepNeeds db applied m = .ok true) : ∀ lm,
    dryRunLoop db applied la nta lm l = .ok (.todo la nta) := by
  induction l with
  | nil => rcases hex with ⟨m, hm, _⟩; cases hm
  | cons m rest ih =>
    intro lm
    unfold dryRunLoop
    cases hs : stepNeeds db applied m with
    | error e => exact absurd hs (hne m (List.mem_cons_self m rest) e)
    | ok b =>
      cases b with
      | true => rfl
      | false =>
        have hex' : ∃ x ∈ rest, stepNeeds db applied x = .ok true := by
          rcases hex with ⟨x, hx, hxt⟩
          rcases List.mem_cons.1 hx with rfl | hx
          · rw [hs] at hxt; cases hxt
          · exact ⟨x, hx, hxt⟩
        exact ih (fun x hx => hne x (List.mem_cons_of_mem m hx)) hex' m.version

theorem dryRunLoop_err_at {db : DbState} {applied : List AppliedMigration}
    {la : Option Version} {nta : Version} {l1 l2 : List NextMigration}
    {m : NextMigration} {e : MigErr}
    (h1 : ∀ x ∈ l1, stepNeeds db applied x = .ok false)
    (hm : stepNeeds db applied m = .error e) : ∀ lm,
    dryRunLoop db applied la nta lm (l1 ++ m :: l2) = .error e := by
  induction l1 with
  | nil =>
    intro lm
    rw [List.nil_append]
    simp only [dryRunLoop, hm]
  | cons x rest ih =>
    intro lm
    rw [List.cons_append]
    simp only [dryRunLoop, h1 x (List.mem_cons_self x rest)]
    exact ih (fun y hy => h1 y (List.mem_cons_of_mem x hy)) x.version

/-! ### Apply loop lemmas -/

/-- `apply_rust_migration` never produces a `MigrationFailure`: every non-error
path is success. -/
theorem apply_rust_migration_ok {migrator : Migrator} {migration : RustMigration}
    {w : WorldState} {failure : MigrationFailure} :
    (apply_rust_migration migrator migration w).2 ≠ .ok (.migrationFailure failure) := by
  unfold apply_rust_migration
  split
  · split
    · split
      · simp
      · rcases hm : migration.migrate (some w.legacyDb) w.db with ⟨db', e?⟩
        cases e? <;> simp
    · simp
  · split
    · simp
    · rcases hm : migration.migrate
          (if migrator.hasLegacySqliteDatabase then some w.legacyDb else none) w.db with ⟨db', e?⟩
      cases e? <;> simp

theorem applyLoop_upToDate {migrator : Migrator} {applied : List AppliedMigration}
    {l : List NextMigration} :
    ∀ {w : WorldState} {lm v : Version},
      (applyLoop migrator applied l w lm).2 = .ok (.upToDate v) →
      v = (l.getLast?.map NextMigration.version).getD lm := by
  induction l with
  | nil =>
    intro w lm v h
    simp [applyLoop] at h
    simp [h]
  | cons m rest ih =>
    intro w lm v h
    cases m with
    | sql sm =>
      unfold applyLoop at h
      rcases ha : apply_sql_migration sm w.db applied with ⟨db', r⟩
      rw [ha] at h
      match r with
      | .error e => cases h
      | .ok .migrationSuccess =>
        simp only at h
        rw [getLast_cons_getD]
        exact ih h
      | .ok (.migrationFailure f) => cases h
    | rust rm =>
      unfold applyLoop at h
      rcases ha : apply_rust_migration migrator rm w with ⟨w', r⟩
      rw [ha] at h
      match r with
      | .error e => cases h
      | .ok .migrationSuccess =>
        simp only at h
        rw [getLast_cons_getD]
        exact ih h
      | .ok (.migrationFailure f) => cases h

theorem applyLoop_failed {migrator : Migrator} {applied : List AppliedMigration}
    {l : List NextMigration} :
    ∀ {w : WorldState} {lm v : Version} {r : MigrationFailure},
      (applyLoop migrator applied l w lm).2 = .ok (.failed v r) →
      ∃ m, NextMigration.sql m ∈ l ∧ v = ⟨m.version⟩ := by
  induction l with
  | nil => intro w lm v r h; simp [applyLoop] at h
  | cons m rest ih =>
    intro w lm v r h
    cases m with
    | sql sm =>
      unfold applyLoop at h
      rcases ha : apply_sql_migration sm w.db applied with ⟨db', res⟩
      rw [ha] at h
      match res with
      | .error e => cases h
      | .ok .migrationSuccess =>
        simp only at h
        rcases ih h with ⟨m', hm', hv'⟩
        exact ⟨m', List.mem_cons_of_mem _ hm', hv'⟩
      | .ok (.migrationFailure f) =>
        simp only at h
        injection h with h
        injection h with h1 h2
        exact ⟨sm, List.mem_cons_self _ _, h1.symm⟩
    | rust rm =>
      unfold applyLoop at h
      rcases ha : apply_rust_migration migrator rm w with ⟨w', res⟩
      rw [ha] at h
      match res with
      | .error e => cases h
      | .ok .migrationSuccess =>
        simp only at h
        rcases ih h with ⟨m', hm', hv'⟩
        exact ⟨m', List.mem_cons_of_mem _ hm', hv'⟩
      | .ok (.migrationFailure f) =>
        exfalso
        have : (apply_rust_migration migrator rm w).2 = .ok (.migrationFailure f) := by
          rw [ha]
        exact apply_rust_migration_ok this

/-! ### Fresh-run apply lemmas -/

theorem name_mem_rustNames {r : RustMigration} {l : List NextMigration}
    (h : NextMigration.rust r ∈ l) : r.name ∈ rustNames l := by
  rw [rustNames, List.mem_filterMap]
  exact ⟨.rust r, h, rfl⟩

theorem mark_as_migrated_not_present {db : DbState} {n : String} {now : Int}
    (h : has_migrated db n = false) :
    mark_as_migrated db n now =
      { db with rustMigrationRows := db.rustMigrationRows ++ [(n, now)] } := by
  unfold has_migrated at h
  unfold mark_as_migrated
  rw [if_neg (by rw [h]; exact Bool.false_ne_true)]

theorem applyLoop_fresh_run (migrator : Migrator) (l : List NextMigration) :
    ∀ (w : WorldState) (lm : Version),
      w.db.sqlApplyFails = [] →
      (∀ r, NextMigration.rust r ∈ l → migrateOkPreserving r) →
      (∀ r, NextMigration.rust r ∈ l → r.name ≠ initFromSqliteName) →
      (∀ r, NextMigration.rust r ∈ l → has_migrated w.db r.name = false) →
      (rustNames l).Nodup →
      (applyLoop migrator [] l w lm).2 =
          .ok (.upToDate ((l.getLast?.map NextMigration.version).getD lm)) ∧
      (applyLoop migrator [] l w lm).1.db.appliedSql = w.db.appliedSql ++ sqlRecords l ∧
      (applyLoop migrator [] l w lm).1.db.rustMigrationRows =
          w.db.rustMigrationRows ++ (rustNames l).map (fun n => (n, w.clock)) := by
  induction l with
  | nil =>
    intro w lm _ _ _ _ _
    simp [applyLoop, rustNames, sqlRecords]
  | cons m rest ih =>
    intro w lm hfails hpres hleg hunseen hnodup
    cases m with
    | sql sm =>
      by_cases hdown : sm.isDownMigration
      · have ha : apply_sql_migration sm w.db [] = (w.db, .ok .migrationSuccess) := by
          simp [apply_sql_migration, hdown, MigrationResult.down_migration]
        have hrec : rustNames (NextMigration.sql sm :: rest) = rustNames rest := by
          simp [rustNames]
        have hsq : sqlRecords (NextMigration.sql sm :: rest) = sqlRecords rest := by
          simp [sqlRecords, hdown]
        have ihr := ih ⟨w.db, w.legacyDb, w.clock⟩ ⟨sm.version⟩ hfails
          (fun r hr => hpres r (List.mem_cons_of_mem _ hr))
          (fun r hr => hleg r (List.mem_cons_of_mem _ hr))
          (fun r hr => hunseen r (List.mem_cons_of_mem _ hr))
          (by rw [hrec] at hnodup; exact hnodup)
        simp only [applyLoop, ha]
        rw [hrec, hsq, getLast_cons_getD]
        exact ihr
      · have ha : apply_sql_migration sm w.db [] =
            ({ w.db with appliedSql := w.db.appliedSql ++ [⟨sm.version, sm.checksum⟩] },
             .ok .migrationSuccess) := by
          rw [apply_sql_migration, if_neg hdown]
          simp only [List.find?_nil]
          rw [sqlxApply, if_neg (by rw [hfails]; simp)]
        have hrec : rustNames (NextMigration.sql sm :: rest) = rustNames rest := by
          simp [rustNames]
        have hsq : sqlRecords (NextMigration.sql sm :: rest) =
            AppliedMigration.mk sm.version sm.checksum :: sqlRecords rest := by
          simp [sqlRecords, hdown]
        have ihr := ih
          ⟨{ w.db with appliedSql := w.db.appliedSql ++ [⟨sm.version, sm.checksum⟩] },
            w.legacyDb, w.clock⟩ ⟨sm.version⟩
          hfails
          (fun r hr => hpres r (List.mem_cons_of_mem _ hr))
          (fun r hr => hleg r (List.mem_cons_of_mem _ hr))
          (fun r hr => hunseen r (List.mem_cons_of_mem _ hr))
          (by rw [hrec] at hnodup; exact hnodup)
        simp only [applyLoop, ha]
        rw [hrec, hsq, getLast_cons_getD]
        refine ⟨ihr.1, ?_, ihr.2.2⟩
        rw [ihr.2.1]
        simp
    | rust rm =>
      have hlegm : rm.name ≠ initFromSqliteName := hleg rm (List.mem_cons_self _ _)
      have hseenm : has_migrated w.db rm.name = false := hunseen rm (List.mem_cons_self _ _)
      have hpresm := hpres rm (List.mem_cons_self _ _)
      rcases hm : rm.migrate
          (if migrator.hasLegacySqliteDatabase then some w.legacyDb else none) w.db
        with ⟨db', e?⟩
      have he : e? = none := by
        have h0 := (hpresm (if migrator.hasLegacySqliteDatabase then some w.legacyDb else none)
          w.db).1
        rw [hm] at h0
        exact h0
      subst he
      have hdb'app : db'.appliedSql = w.db.appliedSql := by
        have h0 := (hpresm (if migrator.hasLegacySqliteDatabase then some w.legacyDb else none)
          w.db).2.1
        rw [hm] at h0
        exact h0
      have hdb'rows : db'.rustMigrationRows = w.db.rustMigrationRows := by
        have h0 := (hpresm (if migrator.hasLegacySqliteDatabase then some w.legacyDb else none)
          w.db).2.2.1
        rw [hm] at h0
        exact h0
      have hdb'fails : db'.sqlApplyFails = w.db.sqlApplyFails := by
        have h0 := (hpresm (if migrator.hasLegacySqliteDatabase then some w.legacyDb else none)
          w.db).2.2.2
        rw [hm] at h0
        exact h0
      have ha : apply_rust_migration migrator rm w =
          ({ w with db := mark_as_migrated db' rm.name w.clock }, .ok .migrationSuccess) := by
        rw [apply_rust_migration, if_neg (by simp [hlegm]),
          if_neg (by rw [hseenm]; exact Bool.false_ne_true), hm]
      have hseen' : has_migrated db' rm.name = false := by
        unfold has_migrated at hseenm ⊢
        rw [hdb'rows]
        exact hseenm
      have hmark : mark_as_migrated db' rm.name w.clock =
          { db' with rustMigrationRows := w.db.rustMigrationRows ++ [(rm.name, w.clock)] } := by
        rw [mark_as_migrated_not_present hseen', hdb'rows]
      have hrec : rustNames (NextMigration.rust rm :: rest) = rm.name :: rustNames rest := by
        simp [rustNames]
      have hsq : sqlRecords (NextMigration.rust rm :: rest) = sqlRecords rest := by
        simp [sqlRecords]
      have hnodup' : (rustNames rest).Nodup := by
        rw [hrec] at hnodup
        exact hnodup.of_cons
      have hnotmem : rm.name ∉ rustNames rest := by
        rw [hrec] at hnodup
        exact (List.nodup_cons.1 hnodup).1
      have ihr := ih
        ⟨{ db' with rustMigrationRows := w.db.rustMigrationRows ++ [(rm.name, w.clock)] },
          w.legacyDb, w.clock⟩ rm.version
        (by simpa [hdb'fails] using hfails)
        (fun r hr => hpres r (List.mem_cons_of_mem _ hr))
        (fun r hr => hleg r (List.mem_cons_of_mem _ hr))
        (fun r hr => by
          have h1 : has_migrated w.db r.name = false := hunseen r (List.mem_cons_of_mem _ hr)
          have h2 : r.name ≠ rm.name := by
            intro hcontra
            exact hnotmem (hcontra ▸ name_mem_rustNames hr)
          unfold has_migrated at h1 ⊢
          simp only [List.any_append, List.any_cons, List.any_nil, Bool.or_false]
          rw [h1]
          simp only [Bool.false_or]
          exact beq_eq_false_iff_ne.2 (fun hcontra => h2 hcontra.symm))
        hnodup'
      simp only [applyLoop, ha, hmark]
      rw [hrec, hsq, getLast_cons_getD]
      refine ⟨ihr.1, ?_, ?_⟩
      · rw [ihr.2.1]
        simp [hdb'app]
      · rw [ihr.2.2]
        simp [List.append_assoc]

/-! ### Content of the merged stream -/

theorem stepNeeds_fresh_sql {db : DbState} {sm : SqlxMigration} :
    stepNeeds db [] (.sql sm) = .ok (!sm.isDownMigration) := by
  unfold stepNeeds needs_sql_migration
  cases h : sm.isDownMigration <;> simp [h]

theorem stepNeeds_rust_eq {db : DbState} {applied : List AppliedMigration}
    {rm : RustMigration} :
    stepNeeds db applied (.rust rm) = .ok (!(has_migrated db rm.name)) := rfl

theorem stepNeeds_fresh_no_error {db : DbState} {m : NextMigration} {e : MigErr} :
    stepNeeds db [] m ≠ .error e := by
  cases m with
  | sql sm => rw [stepNeeds_fresh_sql]; exact fun h => by cases h
  | rust rm => rw [stepNeeds_rust_eq]; exact fun h => by cases h

theorem sql_mem_mergedMigrations {migrator : Migrator} {up_to : Version}
    {sm : SqlxMigration} :
    NextMigration.sql sm ∈ mergedMigrations migrator up_to ↔
      sm ∈ migrator.sql_migrations ∧ sm.version ≤ up_to.val := by
  rw [mergedMigrations, mem_sortMigrations, List.mem_append]
  simp [List.mem_map, List.mem_filter]

theorem rust_mem_mergedMigrations {migrator : Migrator} {up_to : Version}
    {rm : RustMigration} :
    NextMigration.rust rm ∈ mergedMigrations migrator up_to ↔
      rm ∈ migrator.rust_migrations ∧ rm.version.val ≤ up_to.val := by
  rw [mergedMigrations, mem_sortMigrations, List.mem_append]
  simp [List.mem_map, List.mem_filter]

theorem rustNames_append (l1 l2 : List NextMigration) :
    rustNames (l1 ++ l2) = rustNames l1 ++ rustNames l2 := by
  simp [rustNames, List.filterMap_append]

theorem rustNames_map_sql (l : List SqlxMigration) :
    rustNames (l.map NextMigration.sql) = [] := by
  induction l with
  | nil => rfl
  | cons a t ih => simp [rustNames, List.filterMap_cons]

theorem rustNames_map_rust (l : List RustMigration) :
    rustNames (l.map NextMigration.rust) = l.map (fun m => m.name) := by
  induction l with
  | nil => rfl
  | cons a t ih => simpa [rustNames, List.filterMap_cons] using ih

theorem sqlRecords_append (l1 l2 : List NextMigration) :
    sqlRecords (l1 ++ l2) = sqlRecords l1 ++ sqlRecords l2 := by
  simp [sqlRecords, List.filterMap_append]

theorem sqlRecords_map_rust (l : List RustMigration) :
    sqlRecords (l.map NextMigration.rust) = [] := by
  induction l with
  | nil => rfl
  | cons a t ih => simp [sqlRecords, List.filterMap_cons]

theorem sqlRecords_map_sql (l : List SqlxMigration) :
    sqlRecords (l.map NextMigration.sql) =
      l.filterMap (fun s =>
        if s.isDownMigration then none else some ⟨s.version, s.checksum⟩) := by
  induction l with
  | nil => rfl
  | cons a t ih => simp [sqlRecords, List.filterMap_cons] at ih ⊢; rw [ih]

theorem rustNames_merged_perm (migrator : Migrator) (up_to : Version) :
    (rustNames (mergedMigrations migrator up_to)).Perm
      ((migrator.rust_migrations.filter
        (fun m => decide (m.version.val ≤ up_to.val))).map (fun m => m.name)) := by
  have h1 := (sortMigrations_perm
    ((migrator.sql_migrations.filter (fun m => decide (m.version ≤ up_to.val))).map
        NextMigration.sql
      ++ (migrator.rust_migrations.filter (fun m => decide (m.version.val ≤ up_to.val))).map
        NextMigration.rust)).filterMap
    (fun m => match m with | .rust r => some r.name | .sql _ => none)
  have h2 : rustNames (mergedMigrations migrator up_to) =
      List.filterMap (fun m => match m with | .rust r => some r.name | .sql _ => none)
        (sortMigrations _) := rfl
  rw [mergedMigrations]
  refine h1.trans ?_
  rw [show List.filterMap (fun m => match m with | .rust r => some r.name | .sql _ => none)
      ((migrator.sql_migrations.filter (fun m => decide (m.version ≤ up_to.val))).map
          NextMigration.sql
        ++ (migrator.rust_migrations.filter
          (fun m => decide (m.version.val ≤ up_to.val))).map NextMigration.rust) =
      rustNames _ from rfl]
  rw [rustNames_append, rustNames_map_sql, rustNames_map_rust, List.nil_append]

theorem sqlRecords_merged_perm (migrator : Migrator) (up_to : Version) :
    (sqlRecords (mergedMigrations migrator up_to)).Perm
      ((migrator.sql_migrations.filter
        (fun m => decide (m.version ≤ up_to.val))).filterMap (fun s =>
          if s.isDownMigration then none else some ⟨s.version, s.checksum⟩)) := by
  have h1 := (sortMigrations_perm
    ((migrator.sql_migrations.filter (fun m => decide (m.version ≤ up_to.val))).map
        NextMigration.sql
      ++ (migrator.rust_migrations.filter (fun m => decide (m.version.val ≤ up_to.val))).map
        NextMigration.rust)).filterMap
    (fun m => match m with
      | NextMigration.sql s =>
        if s.isDownMigration then none else some (AppliedMigration.mk s.version s.checksum)
      | NextMigration.rust _ => none)
  rw [mergedMigrations]
  refine h1.trans ?_
  rw [show List.filterMap (fun m => match m with
      | NextMigration.sql s =>
        if s.isDownMigration then none else some (AppliedMigration.mk s.version s.checksum)
      | NextMigration.rust _ => none)
      ((migrator.sql_migrations.filter (fun m => decide (m.version ≤ up_to.val))).map
          NextMigration.sql
        ++ (migrator.rust_migrations.filter
          (fun m => decide (m.version.val ≤ up_to.val))).map NextMigration.rust) =
      sqlRecords _ from rfl]
  rw [sqlRecords_append, sqlRecords_map_sql, sqlRecords_map_rust, List.append_nil]

/-! ### Claim C1 -/

/-- C1 (amended): for every registered step set whose code steps have
pairwise-distinct names, none of which is the distinguished legacy-import
name, and whose code migrations succeed without writing the bookkeeping
tables themselves, and for every `up_to` at least every registered version:
starting from a fresh database, `migrate_up_to` returns `UpToDate` and the
applied records are exactly the registered steps whose kind is not Down —
the SQL history rows carry exactly the non-down SQL steps' versions and
checksums, and the `_rust_migrations` rows carry exactly the code steps'
names. -/
theorem c1_applied_records_eq (migrator : Migrator) (w : WorldState) (up_to : Version)
    (hdirty : w.db.dirtyVersion = none)
    (happl : w.db.appliedSql = [])
    (hrows : w.db.rustMigrationRows = [])
    (hfails : w.db.sqlApplyFails = [])
    (hnames : (migrator.rust_migrations.map (fun m => m.name)).Nodup)
    (hleg : ∀ rm ∈ migrator.rust_migrations, rm.name ≠ initFromSqliteName)
    (hpres : ∀ rm ∈ migrator.rust_migrations, migrateOkPreserving rm)
    (hmax_sql : ∀ sm ∈ migrator.sql_migrations, sm.version ≤ up_to.val)
    (hmax_rust : ∀ rm ∈ migrator.rust_migrations, rm.version.val ≤ up_to.val) :
    (∃ v, (migrate_up_to migrator w up_to).2 = .ok (.upToDate v)) ∧
    (∀ v c, AppliedMigration.mk v c ∈ (migrate_up_to migrator w up_to).1.db.appliedSql ↔
      ∃ sm ∈ migrator.sql_migrations,
        sm.isDownMigration = false ∧ sm.version = v ∧ sm.checksum = c) ∧
    (∀ n, (∃ t, (n, t) ∈ (migrate_up_to migrator w up_to).1.db.rustMigrationRows) ↔
      ∃ rm ∈ migrator.rust_migrations, rm.name = n) := by
  classical
  have hsqlmem : ∀ sm : SqlxMigration,
      (NextMigration.sql sm ∈ mergedMigrations migrator up_to ↔
        sm ∈ migrator.sql_migrations) := by
    intro sm
    rw [sql_mem_mergedMigrations]
    exact ⟨fun h => h.1, fun h => ⟨h, hmax_sql sm h⟩⟩
  have hrustmem : ∀ rm : RustMigration,
      (NextMigration.rust rm ∈ mergedMigrations migrator up_to ↔
        rm ∈ migrator.rust_migrations) := by
    intro rm
    rw [rust_mem_mergedMigrations]
    exact ⟨fun h => h.1, fun h => ⟨h, hmax_rust rm h⟩⟩
  have hunseen : ∀ n, has_migrated w.db n = false := by
    intro n
    unfold has_migrated
    rw [hrows]
    rfl
  have hfs : migrator.sql_migrations.filter (fun m => decide (m.version ≤ up_to.val)) =
      migrator.sql_migrations :=
    List.filter_eq_self.2 (fun a ha => by simpa using hmax_sql a ha)
  have hfr : migrator.rust_migrations.filter
      (fun m => decide (m.version.val ≤ up_to.val)) = migrator.rust_migrations :=
    List.filter_eq_self.2 (fun a ha => by simpa using hmax_rust a ha)
  have hnodupmerged : (rustNames (mergedMigrations migrator up_to)).Nodup := by
    rw [(rustNames_merged_perm migrator up_to).nodup_iff, hfr]
    exact hnames
  have himpl : run_migrations_impl migrator w up_to Mode.dryRun =
      (w, dryRunLoop w.db [] none
        (((mergedMigrations migrator up_to).getLast?.map NextMigration.version).getD
          Version.MIN)
        Version.MIN (mergedMigrations migrator up_to)) := by
    rw [run_migrations_impl, hdirty]
    simp [happl]
  have happly : run_migrations_impl migrator w up_to Mode.applyMigrations =
      applyLoop migrator [] (mergedMigrations migrator up_to) w Version.MIN := by
    rw [run_migrations_impl, hdirty]
    simp [happl]
  by_cases hpend : ∃ m ∈ mergedMigrations migrator up_to, stepNeeds w.db [] m = .ok true
  · have hdryval : (run_migrations_impl migrator w up_to Mode.dryRun).2 =
        .ok (.todo none
          (((mergedMigrations migrator up_to).getLast?.map NextMigration.version).getD
            Version.MIN)) := by
      rw [himpl]
      exact dryRunLoop_of_pending (fun m hm e => stepNeeds_fresh_no_error) hpend Version.MIN
    have hneeds : needs_migration migrator w up_to = .ok true := by
      rw [needs_migration, hdryval]
    have hrun : migrate_up_to migrator w up_to =
        run_migrations_impl migrator w up_to Mode.applyMigrations := by
      rw [migrate_up_to, hneeds]
      rfl
    have main := applyLoop_fresh_run migrator (mergedMigrations migrator up_to) w
      Version.MIN hfails
      (fun r hr => hpres r ((hrustmem r).1 hr))
      (fun r hr => hleg r ((hrustmem r).1 hr))
      (fun r hr => hunseen r.name)
      hnodupmerged
    rw [hrun, happly]
    refine ⟨⟨_, main.1⟩, ?_, ?_⟩
    · intro v c
      rw [main.2.1, happl, List.nil_append,
        (sqlRecords_merged_perm migrator up_to).mem_iff, hfs, List.mem_filterMap]
      constructor
      · rintro ⟨sm, hsm, hrec⟩
        by_cases hd : sm.isDownMigration
        · rw [if_pos hd] at hrec
          cases hrec
        · rw [if_neg hd] at hrec
          simp only [Option.some.injEq, AppliedMigration.mk.injEq] at hrec
          refine ⟨sm, hsm, ?_, hrec.1, hrec.2⟩
          revert hd
          cases sm.isDownMigration <;> simp
      · rintro ⟨sm, hsm, hdf, hv, hc⟩
        refine ⟨sm, hsm, ?_⟩
        rw [hdf]
        simp [hv, hc]
    · intro n
      rw [main.2.2, hrows, List.nil_append]
      constructor
      · rintro ⟨t, ht⟩
        rw [List.mem_map] at ht
        rcases ht with ⟨nm, hnm, hpair⟩
        have hn : nm = n := congrArg Prod.fst hpair
        subst hn
        have hmem := ((rustNames_merged_perm migrator up_to).mem_iff).1 hnm
        rw [hfr, List.mem_map] at hmem
        rcases hmem with ⟨rm, hrm, hname⟩
        exact ⟨rm, hrm, hname⟩
      · rintro ⟨rm, hrm, hname⟩
        refine ⟨w.clock, ?_⟩
        rw [List.mem_map]
        refine ⟨n, ?_, rfl⟩
        rw [← hname]
        exact ((rustNames_merged_perm migrator up_to).mem_iff).2
          (by rw [hfr, List.mem_map]; exact ⟨rm, hrm, rfl⟩)
  · have hall : ∀ m ∈ mergedMigrations migrator up_to,
        stepNeeds w.db [] m = .ok false := by
      intro m hm
      cases m with
      | sql sm =>
        rw [stepNeeds_fresh_sql]
        cases hd : sm.isDownMigration with
        | true => rfl
        | false =>
          exfalso
          exact hpend ⟨.sql sm, hm, by rw [stepNeeds_fresh_sql, hd]; rfl⟩
      | rust rm =>
        exfalso
        exact hpend ⟨.rust rm, hm, by rw [stepNeeds_rust_eq, hunseen rm.name]; rfl⟩
    have hdryval : (run_migrations_impl migrator w up_to Mode.dryRun).2 =
        .ok (.upToDate
          (((mergedMigrations migrator up_to).getLast?.map NextMigration.version).getD
            Version.MIN)) := by
      rw [himpl]
      exact dryRunLoop_of_all_false hall Version.MIN
    have hneeds : needs_migration migrator w up_to = .ok false := by
      rw [needs_migration, hdryval]
    have hfinal : migrate_up_to migrator w up_to = (w, .ok (.upToDate up_to)) := by
      rw [migrate_up_to, hneeds]
    rw [hfinal]
    refine ⟨⟨up_to, rfl⟩, ?_, ?_⟩
    · intro v c
      rw [happl]
      simp only [List.not_mem_nil, false_iff]
      rintro ⟨sm, hsm, hdf, hv, hc⟩
      have hmm : NextMigration.sql sm ∈ mergedMigrations migrator up_to :=
        (hsqlmem sm).2 hsm
      have hsn := hall _ hmm
      rw [stepNeeds_fresh_sql, hdf] at hsn
      cases hsn
    · intro n
      rw [hrows]
      simp only [List.not_mem_nil, exists_false, false_iff]
      rintro ⟨rm, hrm, hname⟩
      have hmm : NextMigration.rust rm ∈ mergedMigrations migrator up_to :=
        (hrustmem rm).2 hrm
      have hsn := hall _ hmm
      rw [stepNeeds_rust_eq, hunseen rm.name] at hsn
      cases hsn

/-! ### Claim C2 -/

/-- C2: for every pair of registered step collections (registration enforces
per-family version uniqueness), the merged stream processed by the planner
and applier is strictly sorted: each element precedes the next by strictly
smaller version, or by equal version with the SQL step strictly before the
code step.  The order is total on the stream (every pair of distinct
positions is strictly related, so no ties exist and stability of the
underlying stable sort is vacuous), and the stream is a permutation of the
two filtered collections. -/
theorem c2_merged_stream_sorted (migrator : Migrator) (up_to : Version)
    (hsql : (migrator.sql_migrations.map (fun m => m.version)).Nodup)
    (hrust : (migrator.rust_migrations.map (fun m => m.version.val)).Nodup) :
    (mergedMigrations migrator up_to).Pairwise (fun a b =>
      a.version.val < b.version.val ∨
        (a.version.val = b.version.val ∧ a.is_sql = true ∧ b.is_sql = false)) ∧
    (mergedMigrations migrator up_to).Perm
      ((migrator.sql_migrations.filter (fun m => decide (m.version ≤ up_to.val))).map
          NextMigration.sql
        ++ (migrator.rust_migrations.filter
          (fun m => decide (m.version.val ≤ up_to.val))).map NextMigration.rust) := by
  have hperm : (mergedMigrations migrator up_to).Perm
      ((migrator.sql_migrations.filter (fun m => decide (m.version ≤ up_to.val))).map
          NextMigration.sql
        ++ (migrator.rust_migrations.filter
          (fun m => decide (m.version.val ≤ up_to.val))).map NextMigration.rust) := by
    rw [mergedMigrations]
    exact sortMigrations_perm _
  have hle : (mergedMigrations migrator up_to).Pairwise
      (fun x y => x.sortKey ≤ y.sortKey) := by
    rw [mergedMigrations]
    exact pairwise_sortMigrations _
  have hsqlkeys : ((migrator.sql_migrations.filter
      (fun m => decide (m.version ≤ up_to.val))).map NextMigration.sql).Pairwise
      (fun a b => a.sortKey ≠ b.sortKey) := by
    rw [List.pairwise_map]
    have h1 : ((migrator.sql_migrations.filter
        (fun m => decide (m.version ≤ up_to.val))).map (fun m => m.version)).Nodup :=
      hsql.sublist ((List.filter_sublist _).map _)
    refine ((List.pairwise_map).1 h1).imp ?_
    intro a b hne hcontra
    apply hne
    have hk : 2 * a.version + (if true then (0:Int) else 1) =
        2 * b.version + (if true then (0:Int) else 1) := hcontra
    simp at hk
    omega
  have hrustkeys : ((migrator.rust_migrations.filter
      (fun m => decide (m.version.val ≤ up_to.val))).map NextMigration.rust).Pairwise
      (fun a b => a.sortKey ≠ b.sortKey) := by
    rw [List.pairwise_map]
    have h1 : ((migrator.rust_migrations.filter
        (fun m => decide (m.version.val ≤ up_to.val))).map (fun m => m.version.val)).Nodup :=
      hrust.sublist ((List.filter_sublist _).map _)
    refine ((List.pairwise_map).1 h1).imp ?_
    intro a b hne hcontra
    apply hne
    have hk : 2 * a.version.val + (if false then (0:Int) else 1) =
        2 * b.version.val + (if false then (0:Int) else 1) := hcontra
    simp at hk
    omega
  have hbase : ((migrator.sql_migrations.filter
      (fun m => decide (m.version ≤ up_to.val))).map NextMigration.sql
        ++ (migrator.rust_migrations.filter
          (fun m => decide (m.version.val ≤ up_to.val))).map NextMigration.rust).Pairwise
      (fun a b => a.sortKey ≠ b.sortKey) := by
    rw [List.pairwise_append]
    refine ⟨hsqlkeys, hrustkeys, ?_⟩
    intro a ha b hb
    rw [List.mem_map] at ha hb
    rcases ha with ⟨sa, _, rfl⟩
    rcases hb with ⟨rb, _, rfl⟩
    intro hcontra
    have hk : 2 * sa.version + (if true then (0:Int) else 1) =
        2 * rb.version.val + (if false then (0:Int) else 1) := hcontra
    simp at hk
    omega
  have hne : (mergedMigrations migrator up_to).Pairwise
      (fun a b => a.sortKey ≠ b.sortKey) :=
    (hperm.pairwise_iff (fun hxy hc => hxy hc.symm)).2 hbase
  refine ⟨?_, hperm⟩
  refine (hle.and hne).imp ?_
  intro a b hab
  exact NextMigration.cmp_lt_spec.1
    (NextMigration.cmp_eq_lt.2 (lt_of_le_of_ne hab.1 hab.2))

/-! ### Claim C3 -/

/-- C3 (amended): whenever `migrate_up_to(pool, v)` returns `UpToDate(w)`,
either the planner found nothing pending and the fast path returned
`UpToDate(v)` itself — NOT the last registered version — or the apply loop
completed and `w` is the version of the last registered step ≤ v in the
ordered stream (`Version::MIN` when the stream is empty). -/
theorem c3_up_to_date_version (migrator : Migrator) (w : WorldState) (up_to v : Version)
    (h : (migrate_up_to migrator w up_to).2 = .ok (.upToDate v)) :
    v = up_to ∨
      v = (((mergedMigrations migrator up_to).getLast?.map NextMigration.version).getD
        Version.MIN) := by
  rw [migrate_up_to] at h
  cases hn : needs_migration migrator w up_to with
  | error e => rw [hn] at h; cases h
  | ok b =>
    rw [hn] at h
    cases b with
    | false =>
      left
      simp only at h
      injection h with h
      injection h with h
      exact h.symm
    | true =>
      right
      simp only at h
      rw [run_migrations, run_migrations_impl] at h
      cases hd : w.db.dirtyVersion with
      | some dv =>
        rw [hd] at h
        simp at h
      | none =>
        rw [hd] at h
        simp only at h
        exact applyLoop_upToDate h

/-! ### Claim C4 -/

/-- C4 (amended): whenever the dry-run planner reports `Todo(last, p)`,
`last` is the version of the last row of the applied-SQL snapshot, and `p` is
the version of the LAST registered step ≤ up_to in the ordered stream
(`next_migration_to_apply` in the source) — not the version of the first
pending step. -/
theorem c4_todo_components (migrator : Migrator) (w : WorldState) (up_to : Version)
    {la : Option Version} {p : Version}
    (h : (run_migrations_impl migrator w up_to Mode.dryRun).2 = .ok (.todo la p)) :
    la = w.db.appliedSql.getLast?.map (fun m => Version.mk m.version) ∧
    p = (((mergedMigrations migrator up_to).getLast?.map NextMigration.version).getD
      Version.MIN) := by
  rw [run_migrations_impl] at h
  cases hd : w.db.dirtyVersion with
  | some dv =>
    rw [hd] at h
    simp at h
  | none =>
    rw [hd] at h
    simp only at h
    exact dryRunLoop_todo_args h

/-! ### Claim C5 -/

/-- C5 (amended): when the dirty-version marker is set, `status()` returns
the `Failed(v, DirtyVersion)` status as an inspectable value, with no further
step inspection and no state change; but `migrate_up_to()` does NOT return
that status — `needs_migration` converts it into a hard (thrown) error, again
without inspecting or applying any step. -/
theorem c5_dirty_version (migrator : Migrator) (w : WorldState) (v : Int)
    (up_to : Version) (h : w.db.dirtyVersion = some v) :
    migration_status migrator w = .ok (.failed ⟨v⟩ .dirtyVersion) ∧
    migrate_up_to migrator w up_to =
      (w, .error (.migrationPreviouslyFailed ⟨v⟩ .dirtyVersion)) := by
  have hs : run_migrations_impl migrator w Version.MAX Mode.dryRun =
      (w, .ok (.failed ⟨v⟩ .dirtyVersion)) := by
    rw [run_migrations_impl, h]
  have hu : run_migrations_impl migrator w up_to Mode.dryRun =
      (w, .ok (.failed ⟨v⟩ .dirtyVersion)) := by
    rw [run_migrations_impl, h]
  constructor
  · rw [migration_status, hs]
  · rw [migrate_up_to, needs_migration, hu]

/-! ### Claim C6 -/

/-- C6 (amended): when an applied SQL record's checksum differs bytewise from
the registered non-down step found at the same version, `status()` never
returns `UpToDate`; and when additionally the dirty marker is unset and every
step ordered before the mismatched one reports no pending work, `status()`
fails hard with the ChecksumMismatch error.  (When an earlier step is
pending, `status()` returns `Todo` instead of the error — see the
counterexample.) -/
theorem c6_checksum_mismatch (migrator : Migrator) (w : WorldState)
    (sm : SqlxMigration) (a : AppliedMigration)
    (hmem : sm ∈ migrator.sql_migrations)
    (hbound : sm.version ≤ Version.MAX.val)
    (hdown : sm.isDownMigration = false)
    (hfind : w.db.appliedSql.find? (fun m => m.version == sm.version) = some a)
    (hbad : sm.checksum ≠ a.checksum) :
    (∀ v, migration_status migrator w ≠ .ok (.upToDate v)) ∧
    (w.db.dirtyVersion = none →
      ∀ l1 l2, mergedMigrations migrator Version.MAX = l1 ++ NextMigration.sql sm :: l2 →
        (∀ x ∈ l1, stepNeeds w.db w.db.appliedSql x = .ok false) →
        migration_status migrator w = .error (.checksumMismatch sm.description sm.version)) := by
  have hsn : stepNeeds w.db w.db.appliedSql (.sql sm) =
      .error (.checksumMismatch sm.description sm.version) := by
    show needs_sql_migration sm w.db.appliedSql =
      .error (.checksumMismatch sm.description sm.version)
    rw [needs_sql_migration, if_neg (by rw [hdown]; exact Bool.false_ne_true)]
    simp only [hfind]
    rw [if_pos hbad]
  constructor
  · intro v hcontra
    rw [migration_status, run_migrations_impl] at hcontra
    cases hd : w.db.dirtyVersion with
    | some dv =>
      rw [hd] at hcontra
      simp at hcontra
    | none =>
      rw [hd] at hcontra
      simp only at hcontra
      have hall := dryRunLoop_upToDate_all hcontra
      have hmm : NextMigration.sql sm ∈ mergedMigrations migrator Version.MAX :=
        sql_mem_mergedMigrations.2 ⟨hmem, hbound⟩
      have hc2 := hall _ hmm
      rw [hsn] at hc2
      cases hc2
  · intro hdirty l1 l2 hsplit hok
    rw [migration_status, run_migrations_impl, hdirty]
    simp only
    rw [hsplit]
    exact dryRunLoop_err_at hok hsn Version.MIN

/-! ### Claim C7 -/

/-- C7: for an unseen (non-legacy) code step whose `migrate` returns an
error, the error propagates to the caller, the step is not marked applied (no
row for its name is written to `_rust_migrations`, assuming the migration
itself does not write that table), and a subsequent run still reports the
step pending; the applied-mark is written only after `migrate` succeeds. -/
theorem c7_code_error_not_marked (migrator : Migrator) (rm : RustMigration)
    (w : WorldState) (e : String)
    (hname : rm.name ≠ initFromSqliteName)
    (hunseen : has_migrated w.db rm.name = false)
    (herr : ∀ l s, (rm.migrate l s).2 = some e)
    (hrows : ∀ l s, (rm.migrate l s).1.rustMigrationRows = s.rustMigrationRows) :
    (apply_rust_migration migrator rm w).2 = .error (.rustMigrateFailed e) ∧
    (apply_rust_migration migrator rm w).1.db.rustMigrationRows =
      w.db.rustMigrationRows ∧
    needs_rust_migration rm (apply_rust_migration migrator rm w).1.db = true := by
  rcases hm : rm.migrate
      (if migrator.hasLegacySqliteDatabase then some w.legacyDb else none) w.db
    with ⟨db', e?⟩
  have he : e? = some e := by
    have h0 := herr (if migrator.hasLegacySqliteDatabase then some w.legacyDb else none) w.db
    rw [hm] at h0
    exact h0
  subst he
  have hdbrows : db'.rustMigrationRows = w.db.rustMigrationRows := by
    have h0 := hrows (if migrator.hasLegacySqliteDatabase then some w.legacyDb else none) w.db
    rw [hm] at h0
    exact h0
  have ha : apply_rust_migration migrator rm w =
      ({ w with db := db' }, .error (.rustMigrateFailed e)) := by
    rw [apply_rust_migration, if_neg (by simp [hname]),
      if_neg (by rw [hunseen]; exact Bool.false_ne_true), hm]
  rw [ha]
  have hgoal : db'.rustMigrationRows = w.db.rustMigrationRows := hdbrows
  refine ⟨rfl, hgoal, ?_⟩
  rw [needs_rust_migration]
  unfold has_migrated at hunseen ⊢
  simp [hdbrows, hunseen]

/-! ### Claim C8 -/

/-- C8: for the distinguished legacy import step, the applied-check and
applied-mark target the legacy source database: with no legacy source
configured the step is skipped outright — the result does not depend on its
`migrate` operation and nothing is marked anywhere; with a legacy source
whose history already shows the step it is likewise skipped; with a legacy
source and the step unseen there, a successful `migrate` is followed by a
mark written to the legacy database's `_rust_migrations` while the current
connection only receives `migrate`'s own writes. -/
theorem c8_legacy_check_and_mark (migrator : Migrator) (rm : RustMigration)
    (w : WorldState) (hname : rm.name = initFromSqliteName) :
    (migrator.hasLegacySqliteDatabase = false →
      ∀ f, apply_rust_migration migrator { rm with migrate := f } w =
        (w, .ok .migrationSuccess)) ∧
    (migrator.hasLegacySqliteDatabase = true → has_migrated w.legacyDb rm.name = true →
      ∀ f, apply_rust_migration migrator { rm with migrate := f } w =
        (w, .ok .migrationSuccess)) ∧
    (migrator.hasLegacySqliteDatabase = true → has_migrated w.legacyDb rm.name = false →
      ∀ db', rm.migrate (some w.legacyDb) w.db = (db', none) →
        (apply_rust_migration migrator rm w).1.legacyDb.rustMigrationRows =
            w.legacyDb.rustMigrationRows ++ [(rm.name, w.clock)] ∧
        (apply_rust_migration migrator rm w).1.db = db' ∧
        (apply_rust_migration migrator rm w).2 = .ok .migrationSuccess) := by
  refine ⟨?_, ?_, ?_⟩
  · intro h f
    rw [apply_rust_migration, if_pos (by simp [hname]),
      if_neg (by rw [h]; exact Bool.false_ne_true)]
  · intro h h2 f
    rw [apply_rust_migration, if_pos (by simp [hname]), if_pos h, if_pos h2]
  · intro h h2 db' hm
    have ha : apply_rust_migration migrator rm w =
        ({ w with
           db := db',
           legacyDb := mark_as_migrated w.legacyDb rm.name w.clock },
         .ok .migrationSuccess) := by
      rw [apply_rust_migration, if_pos (by simp [hname]), if_pos h,
        if_neg (by rw [h2]; exact Bool.false_ne_true), hm]
    rw [ha]
    refine ⟨?_, rfl, rfl⟩
    show (mark_as_migrated w.legacyDb rm.name w.clock).rustMigrationRows =
      w.legacyDb.rustMigrationRows ++ [(rm.name, w.clock)]
    rw [mark_as_migrated_not_present h2]

theorem check_duplicates_from_ok {seen : List Int} {l : List Version}
    (h : check_duplicates_from seen l = .ok ()) :
    (l.map (fun v => v.val)).Nodup ∧ ∀ v ∈ l, v.val ∉ seen := by
  induction l generalizing seen with
  | nil => simp
  | cons v rest ih =>
    rw [check_duplicates_from] at h
    split at h
    · cases h
    · rename_i hnotin
      rcases ih h with ⟨hnd, hall⟩
      constructor
      · rw [List.map_cons, List.nodup_cons]
        refine ⟨?_, hnd⟩
        intro hcontra
        rw [List.mem_map] at hcontra
        rcases hcontra with ⟨u, hu, huv⟩
        exact hall u hu (huv ▸ List.mem_cons_self _ _)
      · intro u hu
        rcases List.mem_cons.1 hu with rfl | hu
        · intro hc
          exact hnotin (by simpa using hc)
        · intro hc
          exact hall u hu (List.mem_cons_of_mem _ hc)

theorem check_duplicates_ok {l : List Version} (h : check_duplicates l = .ok ()) :
    (l.map (fun v => v.val)).Nodup :=
  (check_duplicates_from_ok h).1

/-! ### Claim C9 -/

/-- C9 (amended): after `new(sql_steps)` and `set_code_steps(steps)` both
succeed, no two registered steps within the same family share a version (a
collision fails with the duplicate-version error before installation), and
the installed collections are exactly the arguments; name uniqueness of the
code steps is NOT enforced (see the counterexample). -/
theorem c9_registration_unique_versions (sqls : List SqlxMigration)
    (migrator migrator' : Migrator) (rusts : List RustMigration)
    (h1 : Migrator.new sqls = .ok migrator)
    (h2 : set_rust_migrations migrator rusts = .ok migrator') :
    (sqls.map (fun m => m.version)).Nodup ∧
    (rusts.map (fun m => m.version.val)).Nodup ∧
    migrator.sql_migrations = sqls ∧
    migrator'.sql_migrations = sqls ∧
    migrator'.rust_migrations = rusts := by
  rw [Migrator.new] at h1
  cases hc1 : check_duplicates (sqls.map (fun m => ⟨m.version⟩)) with
  | error e =>
    rw [hc1] at h1
    cases h1
  | ok u =>
    cases u
    rw [hc1] at h1
    simp only at h1
    injection h1 with h1
    rw [set_rust_migrations] at h2
    cases hc2 : check_duplicates (rusts.map (fun m => m.version)) with
    | error e =>
      rw [hc2] at h2
      cases h2
    | ok u =>
      cases u
      rw [hc2] at h2
      simp only at h2
      injection h2 with h2
      refine ⟨?_, ?_, ?_, ?_, ?_⟩
      · have := check_duplicates_ok hc1
        simpa [List.map_map, Function.comp] using this
      · have := check_duplicates_ok hc2
        simpa [List.map_map, Function.comp] using this
      · rw [← h1]
      · rw [← h2, ← h1]
      · rw [← h2]

/-! ### Claim C10 -/

/-- C10: `apply_rust_migration` returns success on every non-error path — it
never constructs a `MigrationFailure` result — so the code-step `Failed`
branch of the apply loop is unreachable, and every `Failed(version, reason)`
status that `migrate_up_to` returns carries the version of a registered SQL
step. -/
theorem c10_failed_carries_sql_version (migrator : Migrator) (w : WorldState)
    (up_to : Version) :
    (∀ rm f, (apply_rust_migration migrator rm w).2 ≠ .ok (.migrationFailure f)) ∧
    (∀ v r, (migrate_up_to migrator w up_to).2 = .ok (.failed v r) →
      ∃ sm ∈ migrator.sql_migrations, v = ⟨sm.version⟩) := by
  constructor
  · intro rm f
    exact apply_rust_migration_ok
  · intro v r h
    rw [migrate_up_to] at h
    cases hn : needs_migration migrator w up_to with
    | error e =>
      rw [hn] at h
      cases h
    | ok b =>
      rw [hn] at h
      cases b with
      | false => simp at h
      | true =>
        simp only at h
        rw [run_migrations, run_migrations_impl] at h
        cases hd : w.db.dirtyVersion with
        | some dv =>
          exfalso
          rw [needs_migration, run_migrations_impl, hd] at hn
          simp at hn
        | none =>
          rw [hd] at h
          simp only at h
          rcases applyLoop_failed h with ⟨sm, hsm, hv⟩
          exact ⟨sm, (sql_mem_mergedMigrations.1 hsm).1, hv⟩

/-! ### Counterexamples and witnesses -/

/-- C1 counterexample: register only the legacy import code step with no
legacy source; `migrate_up_to(1)` (with `1 ≥` every registered version)
returns successfully (`UpToDate`), yet the database is left with NO applied
record at all — the set of applied records does not equal the registered
steps of version ≤ 1. -/
theorem c1_counterexample :
    migrate_up_to exMigLegacy exFreshWorld ⟨1⟩ = (exFreshWorld, .ok (.upToDate ⟨1⟩)) ∧
    exFreshWorld.db.rustMigrationRows = [] ∧
    exFreshWorld.db.appliedSql = [] ∧
    exMigLegacy.rust_migrations.map (fun m => m.name) = ["InitializeFromSqlite"] ∧
    exMigLegacy.rust_migrations.map (fun m => m.version) = [⟨1⟩] :=
  ⟨rfl, rfl, rfl, rfl, rfl⟩

/-- C1 witness: the amended claim at a concrete registry of two SQL steps and
one code step run from a fresh database. -/
theorem c1_witness :
    (∃ v, (migrate_up_to exMigMix exFreshWorld ⟨1000⟩).2 = .ok (.upToDate v)) ∧
    (∀ v c, AppliedMigration.mk v c ∈
        (migrate_up_to exMigMix exFreshWorld ⟨1000⟩).1.db.appliedSql ↔
      ∃ sm ∈ exMigMix.sql_migrations,
        sm.isDownMigration = false ∧ sm.version = v ∧ sm.checksum = c) ∧
    (∀ n, (∃ t, (n, t) ∈
        (migrate_up_to exMigMix exFreshWorld ⟨1000⟩).1.db.rustMigrationRows) ↔
      ∃ rm ∈ exMigMix.rust_migrations, rm.name = n) :=
  c1_applied_records_eq exMigMix exFreshWorld ⟨1000⟩ rfl rfl rfl rfl (by decide)
    (by
      intro rm hrm
      rcases List.mem_singleton.1 hrm with rfl
      decide)
    (by
      intro rm hrm
      rcases List.mem_singleton.1 hrm with rfl
      intro l s
      exact ⟨rfl, rfl, rfl, rfl⟩)
    (by decide)
    (by
      intro rm hrm
      rcases List.mem_singleton.1 hrm with rfl
      decide)

/-- C2 witness: the sortedness and permutation conclusion at the concrete
three-step SQL registry. -/
theorem c2_witness :
    (mergedMigrations exMig3 Version.MAX).Pairwise (fun a b =>
      a.version.val < b.version.val ∨
        (a.version.val = b.version.val ∧ a.is_sql = true ∧ b.is_sql = false)) ∧
    (mergedMigrations exMig3 Version.MAX).Perm
      ((exMig3.sql_migrations.filter
          (fun m => decide (m.version ≤ Version.MAX.val))).map NextMigration.sql
        ++ (exMig3.rust_migrations.filter
          (fun m => decide (m.version.val ≤ Version.MAX.val))).map NextMigration.rust) :=
  c2_merged_stream_sorted exMig3 Version.MAX (by decide) (by decide)

/-- C3 counterexample: with no registered steps, `migrate_up_to(5)` takes the
fast path and returns `UpToDate(5)` — not `UpToDate(Version::MIN)` although
no registered step has version ≤ 5. -/
theorem c3_counterexample :
    migrate_up_to ({} : Migrator) exFreshWorld ⟨5⟩ =
      (exFreshWorld, .ok (.upToDate ⟨5⟩)) ∧
    mergedMigrations ({} : Migrator) ⟨5⟩ = [] ∧
    (⟨5⟩ : Version) ≠ Version.MIN :=
  ⟨rfl, rfl, by decide⟩

/-- C3 witness: the amended disjunction at the fast-path counterexample
input. -/
theorem c3_witness :
    (⟨5⟩ : Version) = ⟨5⟩ ∨
      (⟨5⟩ : Version) =
        (((mergedMigrations ({} : Migrator) ⟨5⟩).getLast?.map
          NextMigration.version).getD Version.MIN) :=
  c3_up_to_date_version {} exFreshWorld ⟨5⟩ ⟨5⟩ rfl

/-- C4 counterexample: spec scenario 3 (steps 100/150/200 registered, 100 and
200 applied, 150 pending).  `status()` returns `Todo(200, 200)`: the second
component is 200, the LAST registered version, not 150, the earliest pending
step — even though step 150 is the (only) pending one. -/
theorem c4_counterexample :
    migration_status exMig3 exWorldScenario3 = .ok (.todo (some ⟨200⟩) ⟨200⟩) ∧
    needs_sql_migration exSql150 exWorldScenario3.db.appliedSql = .ok true ∧
    needs_sql_migration exSql100 exWorldScenario3.db.appliedSql = .ok false ∧
    (⟨200⟩ : Version) ≠ ⟨150⟩ :=
  ⟨rfl, rfl, rfl, by decide⟩

/-- C4 witness: the amended components at the scenario-3 input. -/
theorem c4_witness :
    (some (⟨200⟩ : Version)) =
      exWorldScenario3.db.appliedSql.getLast?.map (fun m => Version.mk m.version) ∧
    (⟨200⟩ : Version) =
      (((mergedMigrations exMig3 Version.MAX).getLast?.map
        NextMigration.version).getD Version.MIN) :=
  c4_todo_components exMig3 exWorldScenario3 Version.MAX rfl

/-- C5 counterexample: with the dirty marker set to 7, `migrate_up_to`
returns a hard error (`Except.error`), not an inspectable
`Failed(7, DirtyVersion)` status value. -/
theorem c5_counterexample :
    migrate_up_to ({} : Migrator) exDirtyWorld ⟨10⟩ =
      (exDirtyWorld, .error (.migrationPreviouslyFailed ⟨7⟩ .dirtyVersion)) :=
  rfl

/-- C5 witness: the amended claim at the dirty world. -/
theorem c5_witness :
    migration_status ({} : Migrator) exDirtyWorld = .ok (.failed ⟨7⟩ .dirtyVersion) ∧
    migrate_up_to ({} : Migrator) exDirtyWorld ⟨10⟩ =
      (exDirtyWorld, .error (.migrationPreviouslyFailed ⟨7⟩ .dirtyVersion)) :=
  c5_dirty_version {} exDirtyWorld 7 ⟨10⟩ rfl

/-- C6 counterexample: steps 100 and 200 registered; only 200 is applied and
its stored checksum `[99]` differs from the registered `[50]`; step 100 is
pending.  `status()` returns `Todo` — an `Except.ok` status value — not a
hard ChecksumMismatch error. -/
theorem c6_counterexample :
    migration_status exMigC10 exWorldMismatch = .ok (.todo (some ⟨200⟩) ⟨200⟩) ∧
    exWorldMismatch.db.appliedSql = [⟨200, [99]⟩] ∧
    exSql200.checksum = [50] ∧
    ([99] : List Nat) ≠ [50] :=
  ⟨rfl, rfl, rfl, by decide⟩

/-- C6 witness: the amended claim where both 100 and 200 are applied and
200's stored checksum is corrupted: `status()` is never `UpToDate` and fails
hard with the ChecksumMismatch error. -/
theorem c6_witness :
    (∀ v, migration_status exMigC10 exWorldMismatch2 ≠ .ok (.upToDate v)) ∧
    migration_status exMigC10 exWorldMismatch2 =
      .error (.checksumMismatch "two" 200) := by
  have main := c6_checksum_mismatch exMigC10 exWorldMismatch2 exSql200 ⟨200, [99]⟩
    (by decide) (by decide) rfl rfl (by decide)
  refine ⟨main.1, ?_⟩
  refine main.2 rfl [.sql exSql100] [] rfl ?_
  intro x hx
  rcases List.mem_singleton.1 hx with rfl
  rfl

/-- C7 witness: the concrete failing code step `exRustFail` in a fresh world:
its error propagates, no `_rust_migrations` row is written, and the step is
still reported pending afterwards. -/
theorem c7_witness :
    (apply_rust_migration ({} : Migrator) exRustFail exFreshWorld).2 =
      .error (.rustMigrateFailed "fail") ∧
    (apply_rust_migration ({} : Migrator) exRustFail exFreshWorld).1.db.rustMigrationRows =
      exFreshWorld.db.rustMigrationRows ∧
    needs_rust_migration exRustFail
      (apply_rust_migration ({} : Migrator) exRustFail exFreshWorld).1.db = true :=
  c7_code_error_not_marked {} exRustFail exFreshWorld "fail" (by decide) rfl
    (fun l s => rfl) (fun l s => rfl)

/-- C8 witness: the legacy step with no legacy source is skipped with the
world unchanged; with a legacy source it is marked in the legacy database
only, and the main database receives only the migration's own (here: no)
writes. -/
theorem c8_witness :
    apply_rust_migration exMigLegacy exRustLegacy exFreshWorld =
      (exFreshWorld, .ok .migrationSuccess) ∧
    (apply_rust_migration exMigWithLegacy exRustLegacy exFreshWorld).1.legacyDb.rustMigrationRows =
      exFreshWorld.legacyDb.rustMigrationRows ++
        [("InitializeFromSqlite", exFreshWorld.clock)] ∧
    (apply_rust_migration exMigWithLegacy exRustLegacy exFreshWorld).1.db =
      exFreshWorld.db := by
  refine ⟨?_, ?_, ?_⟩
  · exact (c8_legacy_check_and_mark exMigLegacy exRustLegacy exFreshWorld rfl).1 rfl
      exRustLegacy.migrate
  · exact ((c8_legacy_check_and_mark exMigWithLegacy exRustLegacy exFreshWorld rfl).2.2
      rfl rfl exFreshWorld.db rfl).1
  · exact ((c8_legacy_check_and_mark exMigWithLegacy exRustLegacy exFreshWorld rfl).2.2
      rfl rfl exFreshWorld.db rfl).2.1

/-- C9 counterexample: two code steps sharing the name "a" at distinct
versions are accepted by `set_rust_migrations` — name uniqueness is not
enforced at registration. -/
theorem c9_counterexample :
    set_rust_migrations ({} : Migrator) [exRustA1, exRustA2] =
      .ok { rust_migrations := [exRustA1, exRustA2] } ∧
    exRustA1.name = exRustA2.name ∧
    exRustA1.version ≠ exRustA2.version :=
  ⟨rfl, rfl, by decide⟩

/-- C9 witness: the amended claim at a concrete registration. -/
theorem c9_witness :
    ([exSql100].map (fun m => m.version)).Nodup ∧
    ([exRustA1, exRustA2].map (fun m => m.version.val)).Nodup ∧
    ({ sql_migrations := [exSql100] } : Migrator).sql_migrations = [exSql100] ∧
    ({ sql_migrations := [exSql100],
       rust_migrations := [exRustA1, exRustA2] } : Migrator).sql_migrations =
      [exSql100] ∧
    ({ sql_migrations := [exSql100],
       rust_migrations := [exRustA1, exRustA2] } : Migrator).rust_migrations =
      [exRustA1, exRustA2] :=
  c9_registration_unique_versions [exSql100] { sql_migrations := [exSql100] }
    { sql_migrations := [exSql100], rust_migrations := [exRustA1, exRustA2] }
    [exRustA1, exRustA2] rfl rfl

/-- C10 witness: the apply path returning `Failed(200, IncorrectChecksum)` at
the concrete corrupted-checksum input indeed carries the version of a
registered SQL step. -/
theorem c10_witness :
    ∃ sm ∈ exMigC10.sql_migrations, (⟨200⟩ : Version) = ⟨sm.version⟩ :=
  (c10_failed_carries_sql_version exMigC10 exWorldMismatch Version.MAX).2 ⟨200⟩
    (.incorrectChecksum "two" "B" "2" "2") rfl

end OckamMigrator
